import Mathlib

/-
Verification of the mdevaluate caching pipeline: the content-fingerprinting
engine (src/mdevaluate/checksum.py) and the windowed correlation scheduler
(src/mdevaluate/correlation.py), shallowly embedded in Lean 4.

Conventions of the embedding:
* Python byte strings are `List Nat` with every entry < 256.
* Python ints are `Nat`/`Int`; Python floats are modelled exactly, as `Rat`
  where the code only adds/multiplies/divides, and as `Real` where the code
  takes logarithms and powers (np.logspace in log_indices).
* `hashlib.md5` is implemented in full (RFC 1321), so digests are computable.
-/

namespace Mdevaluate

/-! ## Bytes, UTF-8 and MD5 (model of hashlib.md5 / int.from_bytes) -/

/-- UTF-8 encoding of a single character, as byte values.  Matches Python's
`str.encode()` for every unicode scalar value (Lean `Char` excludes
surrogates, exactly like Python `str.encode` rejects them). -/
def utf8Char (c : Char) : List Nat :=
  let n := c.toNat
  if n < 0x80 then [n]
  else if n < 0x800 then
    [0xC0 ||| (n >>> 6), 0x80 ||| (n &&& 0x3F)]
  else if n < 0x10000 then
    [0xE0 ||| (n >>> 12), 0x80 ||| ((n >>> 6) &&& 0x3F), 0x80 ||| (n &&& 0x3F)]
  else
    [0xF0 ||| (n >>> 18), 0x80 ||| ((n >>> 12) &&& 0x3F),
     0x80 ||| ((n >>> 6) &&& 0x3F), 0x80 ||| (n &&& 0x3F)]

/-- Model of Python `s.encode()`: UTF-8 bytes of a string. -/
def strBytes (s : String) : List Nat :=
  (s.data.map utf8Char).flatten

/-- `n` as `count` little-endian bytes. -/
def bytesOfNatLE (n count : Nat) : List Nat :=
  (List.range count).map (fun i => (n >>> (8 * i)) % 256)

/-- Model of Python `int.from_bytes(bs, 'big')`. -/
def intFromBytesBE (bs : List Nat) : Nat :=
  bs.foldl (fun acc b => 256 * acc + b) 0

/-- 32-bit truncated addition. -/
def add32 (a b : Nat) : Nat := (a + b) % 4294967296

/-- 32-bit left rotation. -/
def rotl32 (x n : Nat) : Nat :=
  (((x % 4294967296) <<< n) ||| ((x % 4294967296) >>> (32 - n))) % 4294967296

/-- The 64 MD5 sine-derived constants (RFC 1321). -/
def md5K : List Nat := [
  0xd76aa478, 0xe8c7b756, 0x242070db, 0xc1bdceee,
  0xf57c0faf, 0x4787c62a, 0xa8304613, 0xfd469501,
  0x698098d8, 0x8b44f7af, 0xffff5bb1, 0x895cd7be,
  0x6b901122, 0xfd987193, 0xa679438e, 0x49b40821,
  0xf61e2562, 0xc040b340, 0x265e5a51, 0xe9b6c7aa,
  0xd62f105d, 0x02441453, 0xd8a1e681, 0xe7d3fbc8,
  0x21e1cde6, 0xc33707d6, 0xf4d50d87, 0x455a14ed,
  0xa9e3e905, 0xfcefa3f8, 0x676f02d9, 0x8d2a4c8a,
  0xfffa3942, 0x8771f681, 0x6d9d6122, 0xfde5380c,
  0xa4beea44, 0x4bdecfa9, 0xf6bb4b60, 0xbebfbc70,
  0x289b7ec6, 0xeaa127fa, 0xd4ef3085, 0x04881d05,
  0xd9d4d039, 0xe6db99e5, 0x1fa27cf8, 0xc4ac5665,
  0xf4292244, 0x432aff97, 0xab9423a7, 0xfc93a039,
  0x655b59c3, 0x8f0ccc92, 0xffeff47d, 0x85845dd1,
  0x6fa87e4f, 0xfe2ce6e0, 0xa3014314, 0x4e0811a1,
  0xf7537e82, 0xbd3af235, 0x2ad7d2bb, 0xeb86d391]

/-- The MD5 per-round left-rotation amounts. -/
def md5S : List Nat := [
  7, 12, 17, 22, 7, 12, 17, 22, 7, 12, 17, 22, 7, 12, 17, 22,
  5, 9, 14, 20, 5, 9, 14, 20, 5, 9, 14, 20, 5, 9, 14, 20,
  4, 11, 16, 23, 4, 11, 16, 23, 4, 11, 16, 23, 4, 11, 16, 23,
  6, 10, 15, 21, 6, 10, 15, 21, 6, 10, 15, 21, 6, 10, 15, 21]

/-- The MD5 nonlinear mixing function for round `i`. -/
def md5F (i b c d : Nat) : Nat :=
  if i < 16 then (b &&& c) ||| ((b ^^^ 0xFFFFFFFF) &&& d)
  else if i < 32 then (d &&& b) ||| ((d ^^^ 0xFFFFFFFF) &&& c)
  else if i < 48 then b ^^^ c ^^^ d
  else c ^^^ (b ||| (d ^^^ 0xFFFFFFFF))

/-- The MD5 message-word index for round `i`. -/
def md5G (i : Nat) : Nat :=
  if i < 16 then i
  else if i < 32 then (5 * i + 1) % 16
  else if i < 48 then (3 * i + 5) % 16
  else (7 * i) % 16

/-- One MD5 round acting on the state `(a, b, c, d)`, with `M` the sixteen
message words of the current block. -/
def md5Round (M : List Nat) (st : Nat × Nat × Nat × Nat) (i : Nat) :
    Nat × Nat × Nat × Nat :=
  let a := st.1
  let b := st.2.1
  let c := st.2.2.1
  let d := st.2.2.2
  let f := (md5F i b c d + a + md5K.getD i 0 + M.getD (md5G i) 0) % 4294967296
  (d, add32 b (rotl32 f (md5S.getD i 0)), b, c)

/-- The sixteen little-endian 32-bit words of a 64-byte block. -/
def wordsLE (block : List Nat) : List Nat :=
  (List.range 16).map (fun j =>
    block.getD (4 * j) 0 + 256 * block.getD (4 * j + 1) 0 +
    65536 * block.getD (4 * j + 2) 0 + 16777216 * block.getD (4 * j + 3) 0)

/-- Process one 64-byte block. -/
def md5Block (st : Nat × Nat × Nat × Nat) (block : List Nat) :
    Nat × Nat × Nat × Nat :=
  let M := wordsLE block
  let r := (List.range 64).foldl (md5Round M) st
  (add32 st.1 r.1, add32 st.2.1 r.2.1, add32 st.2.2.1 r.2.2.1,
   add32 st.2.2.2 r.2.2.2)

/-- MD5 padding: append `0x80`, zero-fill to 56 mod 64, then the bit length
as eight little-endian bytes. -/
def md5Pad (msg : List Nat) : List Nat :=
  msg ++ [0x80] ++ List.replicate ((119 - msg.length % 64) % 64) 0 ++
    bytesOfNatLE ((8 * msg.length) % 2 ^ 64) 8

/-- Split a byte list into 64-byte chunks (structural recursion on a fuel
bound so that concrete digests reduce inside the kernel; any fuel at least
the list length yields the full chunking). -/
def chunks64Aux : Nat → List Nat → List (List Nat)
  | 0, _ => []
  | _, [] => []
  | fuel + 1, b :: rest =>
    (b :: rest).take 64 :: chunks64Aux fuel ((b :: rest).drop 64)

/-- Split a byte list into 64-byte chunks. -/
def chunks64 (l : List Nat) : List (List Nat) :=
  chunks64Aux l.length l

/-- The MD5 digest of a byte string: sixteen bytes. -/
def md5 (msg : List Nat) : List Nat :=
  let st := (chunks64 (md5Pad msg)).foldl md5Block
    (0x67452301, 0xefcdab89, 0x98badcfe, 0x10325476)
  bytesOfNatLE st.1 4 ++ bytesOfNatLE st.2.1 4 ++
    bytesOfNatLE st.2.2.1 4 ++ bytesOfNatLE st.2.2.2 4

/-! ## The fingerprint engine (src/mdevaluate/checksum.py)

A Python value reaching `checksum` is modelled by `PyVal`: an optional
`__checksum__` attribute (the integer its zero-argument accessor returns)
together with the structural kind the `isinstance`/`hasattr` chain of
`checksum` distinguishes.  The `hasattr(arg, '__checksum__')` test comes
first in the source and can be true of values of any structural kind
(e.g. `version` sets `__checksum__` on a function that also has
`__code__`), which is why the attribute is kept separate from the kind. -/

mutual
inductive PyKind where
  | noneV : PyKind
  | bytesV (b : List Nat) : PyKind
  | strV (s : String) : PyKind
  | funcV (code : List Nat) (closure : PyCells) : PyKind
  | partialApp (f : PyVal) (args : PyValList) (kwargs : PyKwList) : PyKind
  | arrayV (buf : List Nat) : PyKind
  | otherV (r : String) : PyKind

inductive PyVal where
  | mk (checksumAttr : Option Nat) (kind : PyKind) : PyVal

/-- `func.__closure__`: either None or the ordered captured cells.  (A
dedicated type rather than `Option (List PyVal)` keeps the recursion over
the family structural, so concrete fingerprints reduce in the kernel.) -/
inductive PyCells where
  | noneC : PyCells
  | someC (cells : PyValList) : PyCells

inductive PyValList where
  | nil : PyValList
  | cons (head : PyVal) (tail : PyValList) : PyValList

inductive PyKwList where
  | nil : PyKwList
  | cons (key : String) (val : PyVal) (tail : PyKwList) : PyKwList
end

/-- Builds the positional-argument sequence of a partial application. -/
def valListOf : List PyVal → PyValList
  | [] => .nil
  | v :: rest => .cons v (valListOf rest)

/-- Builds the keyword dictionary of a partial application from its pairs
(in dict insertion order). -/
def kwListOf : List (String × PyVal) → PyKwList
  | [] => .nil
  | (k, v) :: rest => .cons k v (kwListOf rest)

/-- The salt constant (`SALT = 42` in checksum.py). -/
def SALT : Nat := 42

/-- First-occurrence lookup in an association list (Python dict access;
the keys of a dict are distinct, so first occurrence is the occurrence). -/
def lookupKey (k : String) : List (String × Nat) → Option Nat
  | [] => Option.none
  | (k', v) :: rest => if k' = k then some v else lookupKey k rest

/-- The keys of the keyword dictionary, sorted lexicographically
(Python `sorted(arg.keywords.keys())`). -/
def sortKeys (pairs : List (String × Nat)) : List String :=
  List.insertionSort (· ≤ ·) (pairs.map Prod.fst)

/-- Renders the keyword-argument block of the `functools.partial` branch:
for each key in sorted order, the key's bytes followed by the decimal form
of the recursively computed checksum of its value
(`bstr += k.encode() + str(checksum(arg.keywords[k])).encode()`). -/
def kwRender (pairs : List (String × Nat)) : List Nat :=
  ((sortKeys pairs).map (fun k =>
    strBytes k ++ strBytes (Nat.repr ((lookupKey k pairs).getD 0)))).flatten

/-- The digest of the salt bytes followed by the given bytes, read
big-endian: the value `checksum` returns for one argument whose appended
bytes are `bs` (every recursive call in the source has this shape). -/
def saltedDigest (bs : List Nat) : Nat :=
  intFromBytesBE (md5 (strBytes (Nat.repr SALT) ++ bs))

mutual
/-- The bytes `checksum` appends for one argument: the branch chain
`hasattr __checksum__` / `is None` / `bytes` / `str` / `hasattr __code__` /
`functools.partial` / `np.ndarray` / fallback `str(arg)`, in source order. -/
def argBytes : PyVal → List Nat
  | .mk (some cs) _ => strBytes (Nat.repr cs)
  | .mk Option.none k => kindBytes k
termination_by structural v => v

/-- The bytes appended for a value without a `__checksum__` attribute,
by structural kind (source order of the elif chain). -/
def kindBytes : PyKind → List Nat
  | .noneV => strBytes "None"
  | .bytesV b => b
  | .strV s => strBytes s
  | .funcV code .noneC => code
  | .funcV code (.someC cells) => code ++ cellsBytes cells
  | .partialApp f args kwargs =>
      strBytes (Nat.repr (saltedDigest (argBytes f))) ++ posBytes args ++
        kwRender (kwChecksums kwargs)
  | .arrayV buf => buf
  | .otherV r => strBytes r
termination_by structural k => k

/-- Closure cells: `bstr += str(checksum(cell.cell_contents)).encode()`
for each cell in capture order. -/
def cellsBytes : PyValList → List Nat
  | .nil => []
  | .cons c rest => strBytes (Nat.repr (saltedDigest (argBytes c))) ++ cellsBytes rest
termination_by structural l => l

/-- Positional arguments of a partial: `bstr += str(checksum(x)).encode()`
for each in call order. -/
def posBytes : PyValList → List Nat
  | .nil => []
  | .cons x rest => strBytes (Nat.repr (saltedDigest (argBytes x))) ++ posBytes rest
termination_by structural l => l

/-- The checksum of each keyword value, keyed by its name. -/
def kwChecksums : PyKwList → List (String × Nat)
  | .nil => []
  | .cons k v rest => (k, saltedDigest (argBytes v)) :: kwChecksums rest
termination_by structural l => l

end

/-- `checksum` applied to a single argument (the shape of every recursive
call in the source). -/
def checksum1 (v : PyVal) : Nat :=
  saltedDigest (argBytes v)

/-- Model of `checksum(*args)` (checksum.py lines 28-64): seed the byte
accumulator with `str(SALT).encode()`, extend it per argument, then return
`int.from_bytes(md5(bstr).digest(), 'big')`. -/
def checksum (args : List PyVal) : Nat :=
  intFromBytesBE (md5 (args.foldl (fun bstr arg => bstr ++ argBytes arg)
    (strBytes (Nat.repr SALT))))

/-! ## The version decorator (checksum.py lines 13-25) -/

/-- A plain Python function as it reaches the `version` decorator: its
`__name__` and its call behavior. -/
structure PyFunc (A B : Type) where
  name : String
  call : A → B

/-- The value returned by the decorator: `functools.wraps` copies
`func.__dict__` (which by then holds `__checksum__`) onto the wrapper, so
the result both delegates calls to `func` and exposes the stored
fingerprint through its zero-argument `__checksum__` accessor. -/
structure VersionedFunc (A B : Type) where
  call : A → B
  checksumAttr : Nat

/-- Model of the `version(version_nr, calls)` decorator applied to `func`:
`cs = checksum(func.__name__, version_nr, *calls)` is computed once, at
registration; the wrapper forwards every invocation to `func` unchanged.
A Python int `version_nr` takes the fallback `str(arg).encode()` branch of
`checksum`, hence the `otherV` embedding. -/
def version {A B : Type} (version_nr : Int) (calls : List PyVal)
    (func : PyFunc A B) : VersionedFunc A B :=
  let cs := checksum (.mk Option.none (.strV func.name) ::
    .mk Option.none (.otherV (toString version_nr)) :: calls)
  { call := fun a => func.call a, checksumAttr := cs }

/-! ## The windowed correlation scheduler (src/mdevaluate/correlation.py)

Frames carry a scalar `time` and an elementwise-indexable payload
(the external FrameSequence contract).  Correlation values are rationals
(the float arithmetic of the scheduler is exact rational arithmetic). -/

structure Frame where
  time : Rat
  data : List Rat
deriving DecidableEq, Inhabited

/-- A frame source: the ordered frames plus the optional slice start the
source may expose through `frames._slice` (used only for the default
`skip`). -/
structure FrameSeq where
  frames : List Frame
  sliceStart : Option Int
deriving DecidableEq

/-- Truncation toward zero of a rational: models both Python `int(x)` and
numpy's cast to a C integer dtype. -/
def truncQ (q : Rat) : Int := if 0 ≤ q then ⌊q⌋ else -⌊-q⌋

/-- Truncation toward zero of a real: models `np.int_` on float values. -/
noncomputable def realTrunc (x : Real) : Int :=
  if 0 ≤ x then ⌊x⌋ else -⌊-x⌋

/-- Model of `np.unique` on integer values: the distinct values, sorted
ascending. -/
def uniqueInts (l : List Int) : List Int :=
  l.toFinset.sort (· ≤ ·)

/-- Model of `log_indices(first, last, num)` (correlation.py lines 14-16):
`ls = np.logspace(0, np.log10(last - first + 1), num=num)` (that is,
`10 ** (k * log10(M) / (num - 1))` for `k < num`, with `M = last-first+1`),
then `np.unique(np.int_(ls) - 1 + first)`.  The float arithmetic is
idealized as exact real arithmetic. -/
noncomputable def log_indices (first last : Int) (num : Nat) : List Int :=
  let M : Real := ((last - first + 1 : Int) : Real)
  let ls : List Real := (List.range num).map (fun k =>
    (10 : Real) ^ ((k : Real) * Real.logb 10 M / ((num : Real) - 1)))
  uniqueInts (ls.map (fun x => realTrunc x - 1 + first))

/-- Model of the default combinator `correlation(function, frames)`
(correlation.py lines 19-22): the first frame of the stream is the fixed
reference; yield `function(start_frame, f)` for the reference itself and
then every further frame, in stream order.  (On an empty stream the Python
generator raises StopIteration at `next(iterator)`; no claim exercises the
empty stream, and the model returns the empty list there.) -/
def correlation {α β : Type} (function : α → α → β) (frames : List α) :
    List β :=
  match frames with
  | [] => []
  | s :: rest => (s :: rest).map (fun f => function s f)

/-- Numpy boolean-mask indexing `f[selector]` on a frame: keep the payload
entries at the positions where the mask holds. -/
def applyMask (mask : List Bool) (f : Frame) : Frame :=
  ⟨f.time, ((f.data.zip mask).filter (fun p => p.2)).map Prod.fst⟩

/-- The selector that returns the full set: a mask selecting every element
of the frame it is derived from. -/
def fullSelector (f : Frame) : List Bool :=
  List.replicate f.data.length true

/-- Model of `subensemble_correlation(selector_function,
correlation_function)` (correlation.py lines 25-33): derive a fixed mask
from the first frame, apply it to every frame of the stream (the first one
included), and delegate the masked stream to `correlation_function`. -/
def subensemble_correlation (selector_function : Frame → List Bool)
    (correlation_function : (Frame → Frame → Rat) → List Frame → List Rat) :
    (Frame → Frame → Rat) → List Frame → List Rat :=
  fun function frames =>
    match frames with
    | [] => []
    | s :: rest =>
      let selector := selector_function s
      correlation_function function
        ((s :: rest).map (fun f => applyMask selector f))

/-- The `k`-th sample of `np.linspace(a, b, num, endpoint=False)`:
`a + k * (b - a) / num`. -/
def linspaceSample (a b : Rat) (num k : Nat) : Rat :=
  a + (k : Rat) * (b - a) / (num : Rat)

/-- The start offsets of the segments (correlation.py lines 80-83):
`np.linspace(len(frames) * skip, len(frames) * (1 - window - skip),
num=segments, endpoint=False, dtype=int)`: the linspace samples over
`[N*skip, N*(1-window-skip))`, cast to int (truncation toward zero). -/
def startFrames (N : Nat) (skip window : Rat) (segments : Nat) : List Int :=
  (List.range segments).map (fun k =>
    truncQ (linspaceSample ((N : Rat) * skip)
      ((N : Rat) * (1 - window - skip)) segments k))

/-- `num_frames = int(len(frames) * window)` (correlation.py line 84). -/
def numFrames (N : Nat) (window : Rat) : Int :=
  truncQ ((N : Rat) * window)

/-- Frame access `frames.__getitem__(i)`, with Python's negative-index
wrap-around.  An out-of-range access raises IndexError in Python; the model
returns the default frame there (no claim exercises an out-of-range
access). -/
def frameAt (fs : FrameSeq) (i : Int) : Frame :=
  if i < 0 then fs.frames.getD (fs.frames.length + i).toNat default
  else fs.frames.getD i.toNat default

/-- Elementwise mean over the segment rows (`result.mean(axis=0)`). -/
def meanRows (rows : List (List Rat)) : List Rat :=
  match rows with
  | [] => []
  | r0 :: _ => (List.range r0.length).map (fun j =>
      (rows.map (fun r => r.getD j 0)).sum / (rows.length : Rat))

/-- The effective skip fraction (correlation.py lines 76-77): the given
`skip` if not None, else `frames._slice.start / len(frames)` when the
source exposes a slice start, else 0. -/
def effSkip (fs : FrameSeq) (skip : Option Rat) : Rat :=
  match skip with
  | some s => s
  | Option.none =>
    match fs.sliceStart with
    | some st => (st : Rat) / (fs.frames.length : Rat)
    | Option.none => 0

/-- The failure of the precondition check `assert window + skip < 1`
(correlation.py line 78). -/
inductive ConfigurationError where
  | windowSkipTooLarge : ConfigurationError
deriving DecidableEq

/-- Model of `shifted_correlation(function, frames, index_distribution,
correlation, segments, window, skip, average)` (correlation.py lines
76-100).  When the precondition holds: compute the segment start offsets
and `num_frames`, take the lag offsets `idx = index_distribution(0,
num_frames)`, build one row per segment start (in list order) by feeding
the frames at `idx + start` to the correlation combinator, optionally
average the rows, and pair the result with the lag times
`frames[i].time - frames[0].time` for `i` in `idx`.  (When `average` is
true, Python returns the single averaged row itself rather than a list of
rows; the model wraps it as a one-row matrix.) -/
def shifted_correlation (function : Frame → Frame → Rat) (fs : FrameSeq)
    (index_distribution : Int → Int → List Int)
    (correlation_fn : (Frame → Frame → Rat) → List Frame → List Rat)
    (segments : Nat) (window : Rat) (skip : Option Rat) (average : Bool) :
    Except ConfigurationError (List Rat × List (List Rat)) :=
  let skipE := effSkip fs skip
  if window + skipE < 1 then
    let starts := startFrames fs.frames.length skipE window segments
    let idx := index_distribution 0 (numFrames fs.frames.length window)
    let result := starts.map (fun s =>
      correlation_fn function ((idx.map (· + s)).map (frameAt fs)))
    let result := if average then [meanRows result] else result
    let times := idx.map (fun i =>
      (frameAt fs i).time - (frameAt fs 0).time)
    Except.ok (times, result)
  else Except.error ConfigurationError.windowSkipTooLarge

/-- First-occurrence lookup of a cached result by fingerprint key. -/
def lookupResult (key : Nat) :
    List (Nat × (List Rat × List (List Rat))) →
      Option (List Rat × List (List Rat))
  | [] => Option.none
  | (k, r) :: rest => if k = key then some r else lookupResult key rest

/-- Modelled from the spec: the memoization wrapper around
`shifted_correlation` (the `autosave_data` decorator lives in
`mdevaluate/autosave.py`, which is not among the provided sources, and the
CacheGateway is an external collaborator).  Per spec section 7, the
ConfigurationError is raised synchronously before any caching occurs, and
per section 4.4 `get_or_compute` returns a stored result on a hit and
computes then stores on a miss.  The cache is an association list from
fingerprint keys to results; the returned cache witnesses what the call
changed. -/
def compute_shifted_correlation_cached
    (cache : List (Nat × (List Rat × List (List Rat)))) (key : Nat)
    (function : Frame → Frame → Rat) (fs : FrameSeq)
    (index_distribution : Int → Int → List Int)
    (correlation_fn : (Frame → Frame → Rat) → List Frame → List Rat)
    (segments : Nat) (window : Rat) (skip : Option Rat) (average : Bool) :
    Except ConfigurationError (List Rat × List (List Rat)) ×
      List (Nat × (List Rat × List (List Rat))) :=
  if 1 ≤ window + effSkip fs skip then
    (Except.error ConfigurationError.windowSkipTooLarge, cache)
  else
    match lookupResult key cache with
    | some r => (Except.ok r, cache)
    | Option.none =>
      match shifted_correlation function fs index_distribution
          correlation_fn segments window skip average with
      | Except.ok r => (Except.ok r, (key, r) :: cache)
      | Except.error e => (Except.error e, cache)

/-! ## Helper lemmas -/

theorem foldl_append_eq_flatten {α : Type} (g : α → List Nat)
    (args : List α) (init : List Nat) :
    args.foldl (fun bstr a => bstr ++ g a) init =
      init ++ (args.map g).flatten := by
  induction args generalizing init with
  | nil => simp
  | cons a rest ih => simp [ih, List.append_assoc]

theorem foldl_bytes_lt (bs : List Nat) (acc K : Nat)
    (hb : ∀ b ∈ bs, b < 256) (ha : acc < K) :
    bs.foldl (fun a b => 256 * a + b) acc < K * 256 ^ bs.length := by
  induction bs generalizing acc K with
  | nil => simpa using ha
  | cons b rest ih =>
    have hb' : b < 256 := hb b (by simp)
    have hacc : 256 * acc + b < 256 * K := by omega
    have := ih (256 * acc + b) (256 * K)
      (fun x hx => hb x (by simp [hx])) hacc
    calc (b :: rest).foldl (fun a c => 256 * a + c) acc
        = rest.foldl (fun a c => 256 * a + c) (256 * acc + b) := rfl
      _ < 256 * K * 256 ^ rest.length := this
      _ = K * 256 ^ (b :: rest).length := by ring_nf; simp [pow_succ]; ring

theorem md5_length (msg : List Nat) : (md5 msg).length = 16 := by
  simp [md5, bytesOfNatLE]

theorem md5_bytes_lt (msg : List Nat) : ∀ b ∈ md5 msg, b < 256 := by
  intro b hb
  simp only [md5, bytesOfNatLE, List.mem_append, List.mem_map,
    List.mem_range] at hb
  rcases hb with ((⟨i, _, h⟩ | ⟨i, _, h⟩) | ⟨i, _, h⟩) | ⟨i, _, h⟩ <;>
    (subst h; exact Nat.mod_lt _ (by norm_num))

/-! ## The claims -/

/-- C2: the fingerprint engine seeds its byte accumulator with the textual
form of the salt and appends per-descriptor bytes in order (so the whole
accumulator is the salt bytes followed by the concatenation of each
descriptor's bytes); a descriptor exposing a precomputed `__checksum__`
contributes the textual form of that stored value, taking priority over
every structural rule; any other descriptor is classified by its
structural kind; and the result is the 128-bit MD5 digest of the
accumulator read as a big-endian unsigned integer (in particular it is
below 2^128). -/
theorem C2_checksum_algorithm (args : List PyVal) :
    checksum args =
      intFromBytesBE (md5 (strBytes (Nat.repr SALT) ++
        (args.map argBytes).flatten))
    ∧ checksum args < 2 ^ 128
    ∧ (∀ cs k, argBytes (.mk (some cs) k) = strBytes (Nat.repr cs))
    ∧ (∀ k, argBytes (.mk Option.none k) = kindBytes k) := by
  refine ⟨?_, ?_, fun cs k => rfl, fun k => rfl⟩
  · simp [checksum, foldl_append_eq_flatten]
  · have h := foldl_bytes_lt
      (md5 (args.foldl (fun bstr arg => bstr ++ argBytes arg)
        (strBytes (Nat.repr SALT)))) 0 1 (md5_bytes_lt _) (by norm_num)
    rw [md5_length] at h
    simpa [checksum, intFromBytesBE] using h

/-- C10: distinct descriptor kinds can collide: a Text descriptor and the
Bytes descriptor holding its UTF-8 encoding always fingerprint equally,
and the NoneValue descriptor fingerprints equally to the Text descriptor
"None". -/
theorem C10_cross_kind_collisions (s : String) :
    checksum [.mk Option.none (.strV s)] =
      checksum [.mk Option.none (.bytesV (strBytes s))]
    ∧ checksum [.mk Option.none .noneV] =
      checksum [.mk Option.none (.strV "None")] :=
  ⟨rfl, rfl⟩

/-- C7: the default correlation combinator takes the first frame of the
stream as the fixed reference and yields `function(reference, f)` for
every frame of the stream in order, the reference itself first (the
zero-lag value). -/
theorem C7_correlation_reference {α β : Type} (function : α → α → β)
    (s : α) (rest : List α) :
    (correlation function (s :: rest)).head? = some (function s s)
    ∧ (correlation function (s :: rest)).length = (s :: rest).length
    ∧ ∀ i : Nat, (correlation function (s :: rest))[i]? =
        ((s :: rest)[i]?).map (function s) := by
  have hmap : correlation function (s :: rest) = (s :: rest).map (function s) := rfl
  exact ⟨rfl, by simp [hmap], fun i => by rw [hmap, List.getElem?_map]⟩

/-- C8: the version-registration decorator returns a value that delegates
every invocation to the original function unchanged and exposes, as its
stored `__checksum__`, the fingerprint of the function's name, the
version number and the dependency descriptors; the stored value is fixed
at registration (it is a field of the returned value and does not depend
on any invocation). -/
theorem C8_version_decorator {A B : Type} (version_nr : Int)
    (calls : List PyVal) (func : PyFunc A B) :
    (∀ a, (version version_nr calls func).call a = func.call a)
    ∧ (version version_nr calls func).checksumAttr =
        checksum (.mk Option.none (.strV func.name) ::
          .mk Option.none (.otherV (toString version_nr)) :: calls) :=
  ⟨fun _ => rfl, rfl⟩

/-- C1: whenever the effective parameters violate the precondition
(`window + skip >= 1`), the scheduler fails synchronously with the
configuration error, for every function, frame source, index
distribution, combinator, segment count and average flag, producing no
partial result; and the cache-wrapped call fails identically while
leaving the cache untouched. -/
theorem C1_config_error_no_work (function : Frame → Frame → Rat)
    (fs : FrameSeq) (index_distribution : Int → Int → List Int)
    (correlation_fn : (Frame → Frame → Rat) → List Frame → List Rat)
    (segments : Nat) (window : Rat) (skip : Option Rat) (average : Bool)
    (cache : List (Nat × (List Rat × List (List Rat)))) (key : Nat)
    (h : 1 ≤ window + effSkip fs skip) :
    shifted_correlation function fs index_distribution correlation_fn
        segments window skip average =
      Except.error ConfigurationError.windowSkipTooLarge
    ∧ compute_shifted_correlation_cached cache key function fs
        index_distribution correlation_fn segments window skip average =
      (Except.error ConfigurationError.windowSkipTooLarge, cache) := by
  constructor
  · simp only [shifted_correlation]
    rw [if_neg (not_lt.mpr h)]
  · simp only [compute_shifted_correlation_cached]
    rw [if_pos h]

/-- Witness for C1 at the spec's concrete example `window=0.6, skip=0.5`:
the precondition is violated and both the plain and the cache-wrapped
call fail with the configuration error, the cache unchanged. -/
theorem C1_config_error_no_work_witness :
    (1 : Rat) ≤ 3/5 + effSkip ⟨[], Option.none⟩ (some (1/2))
    ∧ shifted_correlation (fun _ _ => 0) ⟨[], Option.none⟩
        (fun _ _ => []) (fun _ _ => []) 10 (3/5) (some (1/2)) false =
      Except.error ConfigurationError.windowSkipTooLarge
    ∧ compute_shifted_correlation_cached [] 0 (fun _ _ => 0)
        ⟨[], Option.none⟩ (fun _ _ => []) (fun _ _ => []) 10 (3/5)
        (some (1/2)) false =
      (Except.error ConfigurationError.windowSkipTooLarge, []) :=
  have h : (1 : Rat) ≤ 3/5 + effSkip ⟨[], Option.none⟩ (some (1/2)) := by
    norm_num [effSkip]
  ⟨h,
   (C1_config_error_no_work (fun _ _ => 0) ⟨[], Option.none⟩
     (fun _ _ => []) (fun _ _ => []) 10 (3/5) (some (1/2)) false [] 0 h).1,
   (C1_config_error_no_work (fun _ _ => 0) ⟨[], Option.none⟩
     (fun _ _ => []) (fun _ _ => []) 10 (3/5) (some (1/2)) false [] 0 h).2⟩

theorem kwChecksums_kwListOf (l : List (String × PyVal)) :
    kwChecksums (kwListOf l) = l.map (fun p => (p.1, checksum1 p.2)) := by
  induction l with
  | nil => rfl
  | cons p rest ih =>
    obtain ⟨k, v⟩ := p
    simp only [kwListOf, kwChecksums, ih, List.map_cons]
    rfl

theorem lookupKey_perm (k : String) {l l' : List (String × Nat)}
    (h : l.Perm l') :
    (l.map Prod.fst).Nodup → lookupKey k l = lookupKey k l' := by
  induction h with
  | nil => intro _; rfl
  | cons x h ih =>
    intro nd
    obtain ⟨k', v⟩ := x
    simp only [lookupKey]
    split
    · rfl
    · exact ih (by simpa using nd.of_cons)
  | swap x y l =>
    intro nd
    obtain ⟨kx, vx⟩ := x
    obtain ⟨ky, vy⟩ := y
    have hne : ky ≠ kx := by
      simp only [List.map_cons, List.nodup_cons, List.mem_cons] at nd
      exact fun e => nd.1 (Or.inl e)
    simp only [lookupKey]
    by_cases h1 : ky = k
    · by_cases h2 : kx = k
      · exact absurd (h2 ▸ h1) hne
      · simp [h1, h2]
    · simp [h1]
  | trans h1 h2 ih1 ih2 =>
    intro nd
    have nd2 := ((h1.map Prod.fst).nodup_iff).mp nd
    exact (ih1 nd).trans (ih2 nd2)

theorem sortKeys_perm {l l' : List (String × Nat)} (h : l.Perm l') :
    sortKeys l = sortKeys l' :=
  List.eq_of_perm_of_sorted
    ((List.perm_insertionSort _ _).trans
      ((h.map Prod.fst).trans (List.perm_insertionSort _ _).symm))
    (List.sorted_insertionSort _ _) (List.sorted_insertionSort _ _)

theorem kwRender_perm {l l' : List (String × Nat)} (h : l.Perm l')
    (nd : (l.map Prod.fst).Nodup) : kwRender l = kwRender l' := by
  unfold kwRender
  rw [sortKeys_perm h]
  congr 1
  exact List.map_congr_left (fun k _ => by rw [lookupKey_perm k h nd])

set_option maxRecDepth 1000000 in
/-- C3: permuting the keyword arguments of a partial-application
descriptor (with the distinct keys a Python dict guarantees) never
changes its fingerprint, because keys are sorted before hashing; whereas
swapping two structurally distinct positional arguments does change the
fingerprint, witnessed by `partial(f, "a", "b")` versus
`partial(f, "b", "a")`. -/
theorem C3_kwargs_order_irrelevant_positional_relevant :
    (∀ (f : PyVal) (args : List PyVal) (kw kw' : List (String × PyVal)),
      kw.Perm kw' → (kw.map Prod.fst).Nodup →
      checksum [.mk Option.none (.partialApp f (valListOf args)
          (kwListOf kw))] =
        checksum [.mk Option.none (.partialApp f (valListOf args)
          (kwListOf kw'))])
    ∧ checksum [.mk Option.none (.partialApp (.mk Option.none (.otherV "f"))
        (valListOf [.mk Option.none (.strV "a"),
          .mk Option.none (.strV "b")]) (kwListOf []))] ≠
      checksum [.mk Option.none (.partialApp (.mk Option.none (.otherV "f"))
        (valListOf [.mk Option.none (.strV "b"),
          .mk Option.none (.strV "a")]) (kwListOf []))] := by
  constructor
  · intro f args kw kw' hperm hnd
    have hmap : (kwChecksums (kwListOf kw)).Perm (kwChecksums (kwListOf kw')) := by
      rw [kwChecksums_kwListOf, kwChecksums_kwListOf]
      exact hperm.map _
    have hnd' : ((kwChecksums (kwListOf kw)).map Prod.fst).Nodup := by
      rw [kwChecksums_kwListOf]
      simpa using hnd
    simp only [checksum, List.foldl_cons, List.foldl_nil]
    have : argBytes (.mk Option.none (.partialApp f (valListOf args)
        (kwListOf kw))) = argBytes (.mk Option.none (.partialApp f
        (valListOf args) (kwListOf kw'))) := by
      show kindBytes _ = kindBytes _
      simp only [kindBytes]
      rw [kwRender_perm hmap hnd']
    rw [this]
  · decide

/-- Witness for C3's universal part at a concrete keyword dictionary:
the pairs `x, y` in the two insertion orders, with distinct keys, give
equal fingerprints. -/
theorem C3_kwargs_order_irrelevant_witness :
    ([(("x" : String), PyVal.mk Option.none (.strV "u")),
        ("y", PyVal.mk Option.none (.strV "v"))].Perm
      [("y", PyVal.mk Option.none (.strV "v")),
        ("x", PyVal.mk Option.none (.strV "u"))])
    ∧ checksum [.mk Option.none (.partialApp (.mk Option.none (.otherV "f"))
        (valListOf []) (kwListOf [("x", .mk Option.none (.strV "u")),
          ("y", .mk Option.none (.strV "v"))]))] =
      checksum [.mk Option.none (.partialApp (.mk Option.none (.otherV "f"))
        (valListOf []) (kwListOf [("y", .mk Option.none (.strV "v")),
          ("x", .mk Option.none (.strV "u"))]))] :=
  have hp : [(("x" : String), PyVal.mk Option.none (.strV "u")),
      ("y", PyVal.mk Option.none (.strV "v"))].Perm
      [("y", PyVal.mk Option.none (.strV "v")),
        ("x", PyVal.mk Option.none (.strV "u"))] :=
    List.Perm.swap _ _ _
  ⟨hp, (C3_kwargs_order_irrelevant_positional_relevant).1
    (.mk Option.none (.otherV "f")) []
    [("x", .mk Option.none (.strV "u")), ("y", .mk Option.none (.strV "v"))]
    [("y", .mk Option.none (.strV "v")), ("x", .mk Option.none (.strV "u"))]
    hp (by simp)⟩

theorem applyMask_replicate_true (f : Frame) (n : Nat)
    (h : f.data.length = n) : applyMask (List.replicate n true) f = f := by
  obtain ⟨t, d⟩ := f
  simp only [applyMask, Frame.mk.injEq, true_and]
  subst h
  induction d with
  | nil => rfl
  | cons a l ih =>
    simpa [List.replicate_succ] using ih

/-- C9: `subensemble_correlation` with the selector that always returns
the full set (the all-true mask over the first frame's elements) is
observationally equal to the underlying combinator applied directly, for
every combinator, function and (nonempty, shape-consistent) frame
sequence. -/
theorem C9_subensemble_full_set
    (correlation_function : (Frame → Frame → Rat) → List Frame → List Rat)
    (function : Frame → Frame → Rat) (s : Frame) (rest : List Frame)
    (h : ∀ f ∈ (s :: rest : List Frame), f.data.length = s.data.length) :
    subensemble_correlation fullSelector correlation_function function
      (s :: rest) = correlation_function function (s :: rest) := by
  show correlation_function function
      ((s :: rest).map (fun f => applyMask (fullSelector s) f)) = _
  congr 1
  calc (s :: rest).map (fun f => applyMask (fullSelector s) f)
      = (s :: rest).map id :=
        List.map_congr_left (fun f hf =>
          applyMask_replicate_true f s.data.length (h f hf))
    _ = s :: rest := List.map_id _

/-- Witness for C9 at a concrete two-frame stream and the default
combinator. -/
theorem C9_subensemble_full_set_witness :
    (∀ f ∈ ([⟨0, [1, 2]⟩, ⟨1, [3, 4]⟩] : List Frame),
      f.data.length = (⟨0, [1, 2]⟩ : Frame).data.length)
    ∧ subensemble_correlation fullSelector correlation
        (fun (a b : Frame) => a.data.sum - b.data.sum) [⟨0, [1, 2]⟩, ⟨1, [3, 4]⟩] =
      correlation (fun (a b : Frame) => a.data.sum - b.data.sum)
        [⟨0, [1, 2]⟩, ⟨1, [3, 4]⟩] :=
  have h : ∀ f ∈ ([⟨0, [1, 2]⟩, ⟨1, [3, 4]⟩] : List Frame),
      f.data.length = (⟨0, [1, 2]⟩ : Frame).data.length := by decide
  ⟨h, C9_subensemble_full_set correlation
    (fun (a b : Frame) => a.data.sum - b.data.sum) ⟨0, [1, 2]⟩ [⟨1, [3, 4]⟩] h⟩

theorem truncQ_of_nonneg {q : Rat} (h : 0 ≤ q) : truncQ q = ⌊q⌋ :=
  if_pos h

theorem truncQ_mono {x y : Rat} (h : x ≤ y) : truncQ x ≤ truncQ y := by
  unfold truncQ
  by_cases hx : 0 ≤ x
  · rw [if_pos hx, if_pos (le_trans hx h)]
    exact Int.floor_mono h
  · rw [if_neg hx]
    by_cases hy : 0 ≤ y
    · rw [if_pos hy]
      have h1 : 0 ≤ ⌊-x⌋ := Int.floor_nonneg.mpr (by linarith [not_le.mp hx])
      have h2 : 0 ≤ ⌊y⌋ := Int.floor_nonneg.mpr hy
      omega
    · rw [if_neg hy]
      have h3 : ⌊-y⌋ ≤ ⌊-x⌋ := Int.floor_mono (by linarith)
      omega

theorem linspaceSample_mono (a b : Rat) (m : Nat) (hba : a ≤ b)
    {k k' : Nat} (hk : k ≤ k') :
    linspaceSample a b m k ≤ linspaceSample a b m k' := by
  unfold linspaceSample
  rcases Nat.eq_zero_or_pos m with hm | hm
  · subst hm; simp
  · have hm' : (0 : Rat) < m := by exact_mod_cast hm
    apply add_le_add_left
    apply (div_le_div_iff_of_pos_right hm').mpr
    exact mul_le_mul_of_nonneg_right (by exact_mod_cast hk) (by linarith)

/-- Counterexample to C6 as stated: with 10 frames, `window = 0.3`,
`skip = 0.4` (a valid call: `window + skip = 0.7 < 1`) and two segments,
the computed start offsets are `[4, 3]`: not ascending and not inside the
(empty) half-open interval `[4, 3)`, because `np.linspace` runs backwards
when `skip*N > (1-window-skip)*N`. -/
theorem C6_start_offsets_counterexample :
    (3/10 : Rat) + 2/5 < 1
    ∧ startFrames 10 (2/5) (3/10) 2 = [4, 3]
    ∧ ¬ List.Sorted (· ≤ ·) (startFrames 10 (2/5) (3/10) 2) := by
  have h : startFrames 10 (2/5) (3/10) 2 = [4, 3] := by
    norm_num [startFrames, linspaceSample, truncQ, List.range_succ]
  refine ⟨by norm_num, h, by rw [h]; decide⟩

/-- C6, amended: under the additional hypothesis that the interval is
genuinely ascending (`skip*N < (1-window-skip)*N`, which the claim's
half-open-interval reading presupposes) and `window >= 0`, the scheduler
computes exactly `segments` start offsets, namely the truncations of the
evenly spaced linspace samples, each sample lying in the half-open
interval with the right edge excluded; the offsets are ascending;
`num_frames = floor(window*N)`; and a successful (non-averaged) call
processes exactly these offsets in that list order, one result row per
offset. -/
theorem C6_start_offsets_amended (N segments : Nat) (skip window : Rat)
    (hw : 0 ≤ window)
    (hab : (N : Rat) * skip < (N : Rat) * (1 - window - skip)) :
    (startFrames N skip window segments).length = segments
    ∧ List.Sorted (· ≤ ·) (startFrames N skip window segments)
    ∧ (∀ k, k < segments →
        (N : Rat) * skip ≤ linspaceSample ((N : Rat) * skip)
          ((N : Rat) * (1 - window - skip)) segments k
        ∧ linspaceSample ((N : Rat) * skip)
            ((N : Rat) * (1 - window - skip)) segments k <
          (N : Rat) * (1 - window - skip)
        ∧ (startFrames N skip window segments)[k]? =
          some (truncQ (linspaceSample ((N : Rat) * skip)
            ((N : Rat) * (1 - window - skip)) segments k)))
    ∧ numFrames N window = ⌊(N : Rat) * window⌋
    ∧ (∀ (function : Frame → Frame → Rat) (fs : FrameSeq)
        (index_distribution : Int → Int → List Int)
        (correlation_fn : (Frame → Frame → Rat) → List Frame → List Rat)
        (skipO : Option Rat),
        effSkip fs skipO = skip → fs.frames.length = N →
        window + skip < 1 →
        shifted_correlation function fs index_distribution correlation_fn
            segments window skipO false =
          Except.ok
            ((index_distribution 0 (numFrames N window)).map (fun i =>
              (frameAt fs i).time - (frameAt fs 0).time),
             (startFrames N skip window segments).map (fun s =>
              correlation_fn function
                (((index_distribution 0 (numFrames N window)).map
                  (· + s)).map (frameAt fs))))) := by
  have hba : (N : Rat) * skip ≤ (N : Rat) * (1 - window - skip) :=
    le_of_lt hab
  refine ⟨by simp [startFrames], ?_, ?_, ?_, ?_⟩
  · unfold startFrames
    rw [List.Sorted, List.pairwise_map]
    exact (List.pairwise_lt_range segments).imp
      (fun hlt => truncQ_mono (linspaceSample_mono _ _ _ hba
        (le_of_lt hlt)))
  · intro k hk
    have hm' : (0 : Rat) < segments := by
      exact_mod_cast Nat.lt_of_le_of_lt (Nat.zero_le k) hk
    refine ⟨?_, ?_, ?_⟩
    · unfold linspaceSample
      have : (0 : Rat) ≤ (k : Rat) * ((N : Rat) * (1 - window - skip) -
          (N : Rat) * skip) / (segments : Rat) :=
        div_nonneg (mul_nonneg (by positivity) (by linarith)) (by positivity)
      linarith
    · have hkm : (k : Rat) < (segments : Rat) := by exact_mod_cast hk
      have key : (k : Rat) * ((N : Rat) * (1 - window - skip) -
          (N : Rat) * skip) / (segments : Rat) <
          (N : Rat) * (1 - window - skip) - (N : Rat) * skip := by
        rw [div_lt_iff₀ hm']
        nlinarith
      unfold linspaceSample
      linarith
    · simp [startFrames, List.getElem?_range, hk]
  · exact truncQ_of_nonneg (mul_nonneg (by positivity) hw)
  · intro function fs index_distribution correlation_fn skipO hE hN hvalid
    simp only [shifted_correlation, hE, hN, if_pos hvalid,
      Bool.false_eq_true, if_false]

/-- Witness for the amended C6 at `N = 10, segments = 3, skip = 0.1,
window = 0.5`: the hypotheses hold and the three start offsets `[1, 2, 3]`
are ascending. -/
theorem C6_start_offsets_amended_witness :
    (0 : Rat) ≤ 1/2
    ∧ (10 : Rat) * (1/10) < (10 : Rat) * (1 - 1/2 - 1/10)
    ∧ (startFrames 10 (1/10) (1/2) 3).length = 3
    ∧ List.Sorted (· ≤ ·) (startFrames 10 (1/10) (1/2) 3) :=
  have hw : (0 : Rat) ≤ 1/2 := by norm_num
  have hab : (10 : Rat) * (1/10) < (10 : Rat) * (1 - 1/2 - 1/10) := by
    norm_num
  ⟨hw, hab,
   (C6_start_offsets_amended 10 3 (1/10) (1/2) hw hab).1,
   (C6_start_offsets_amended 10 3 (1/10) (1/2) hw hab).2.1⟩

theorem uniqueInts_sorted_lt (l : List Int) :
    List.Sorted (· < ·) (uniqueInts l) :=
  Finset.sort_sorted_lt _

theorem mem_uniqueInts {l : List Int} {x : Int} :
    x ∈ uniqueInts l ↔ x ∈ l := by
  simp [uniqueInts, Finset.mem_sort]

theorem sorted_head?_eq_zero {l : List Int} (hs : List.Sorted (· < ·) l)
    (h0 : (0 : Int) ∈ l) (hnn : ∀ x ∈ l, 0 ≤ x) : l.head? = some 0 := by
  cases l with
  | nil => cases h0
  | cons a t =>
    have ha : (0 : Int) ≤ a := hnn a (List.mem_cons_self a t)
    have ha0 : a = 0 := by
      rcases List.mem_cons.mp h0 with h | h
      · exact h.symm
      · have hlt := (List.pairwise_cons.mp hs).1 0 h
        omega
    rw [ha0]
    rfl

theorem logspace_val_bounds (M : ℝ) (hM : 1 ≤ M) (k : ℕ) (hk : k ≤ 99) :
    (1 : ℝ) ≤ (10 : ℝ) ^ ((k : ℝ) * Real.logb 10 M / ((100 : ℝ) - 1))
    ∧ (10 : ℝ) ^ ((k : ℝ) * Real.logb 10 M / ((100 : ℝ) - 1)) ≤ M := by
  have hMpos : (0 : ℝ) < M := by linarith
  have hlogb : 0 ≤ Real.logb 10 M := Real.logb_nonneg (by norm_num) hM
  have h99 : ((100 : ℝ) - 1) = 99 := by norm_num
  constructor
  · have h0 : (10 : ℝ) ^ (0 : ℝ) ≤
        (10 : ℝ) ^ ((k : ℝ) * Real.logb 10 M / ((100 : ℝ) - 1)) := by
      apply (Real.rpow_le_rpow_left_iff (by norm_num)).mpr
      rw [h99]
      exact div_nonneg (mul_nonneg (Nat.cast_nonneg k) hlogb) (by norm_num)
    rw [Real.rpow_zero] at h0
    exact h0
  · have he : (k : ℝ) * Real.logb 10 M / ((100 : ℝ) - 1) ≤
        Real.logb 10 M := by
      rw [h99, div_le_iff₀ (by norm_num : (0 : ℝ) < 99)]
      have hk' : (k : ℝ) ≤ 99 := by exact_mod_cast hk
      nlinarith
    calc (10 : ℝ) ^ ((k : ℝ) * Real.logb 10 M / ((100 : ℝ) - 1))
        ≤ (10 : ℝ) ^ Real.logb 10 M :=
          (Real.rpow_le_rpow_left_iff (by norm_num)).mpr he
      _ = M := Real.rpow_logb (by norm_num) (by norm_num) hMpos

/-- C5: the default index distribution over `[0, num_frames]` is a
strictly increasing (hence duplicate-free) integer sequence, contains the
zero-lag offset 0, stays within `[0, num_frames]`, and starts at 0; in
particular `log_indices 0 99 100` starts at 0 and is bounded by 99.
(The float arithmetic of np.logspace is idealized as exact reals.) -/
theorem C5_log_indices_range (n : ℕ) :
    List.Sorted (· < ·) (log_indices 0 (n : Int) 100)
    ∧ (0 : Int) ∈ log_indices 0 (n : Int) 100
    ∧ (∀ x ∈ log_indices 0 (n : Int) 100, 0 ≤ x ∧ x ≤ (n : Int))
    ∧ (log_indices 0 (n : Int) 100).head? = some 0 := by
  have hform : log_indices 0 (n : Int) 100 =
      uniqueInts (((List.range 100).map (fun k : ℕ =>
        (10 : ℝ) ^ ((k : ℝ) *
          Real.logb 10 ((((n : Int) - 0 + 1 : Int)) : ℝ) /
            ((100 : ℝ) - 1)))).map
          (fun x => realTrunc x - 1 + 0)) := rfl
  have hM1 : (1 : ℝ) ≤ (((n : Int) - 0 + 1 : Int) : ℝ) := by
    push_cast
    have h0n : (0 : ℝ) ≤ (n : ℝ) := Nat.cast_nonneg n
    linarith
  have hzero : (0 : Int) ∈ log_indices 0 (n : Int) 100 := by
    rw [hform, mem_uniqueInts]
    apply List.mem_map.mpr
    refine ⟨(10 : ℝ) ^ (((0 : ℕ) : ℝ) *
        Real.logb 10 ((((n : Int) - 0 + 1 : Int)) : ℝ) / ((100 : ℝ) - 1)),
      List.mem_map_of_mem _ (List.mem_range.mpr (by norm_num)), ?_⟩
    norm_num [realTrunc, Real.rpow_zero]
  have hbounds : ∀ x ∈ log_indices 0 (n : Int) 100,
      0 ≤ x ∧ x ≤ (n : Int) := by
    intro x hx
    rw [hform, mem_uniqueInts] at hx
    obtain ⟨v, hv, rfl⟩ := List.mem_map.mp hx
    obtain ⟨k, hk, rfl⟩ := List.mem_map.mp hv
    rw [List.mem_range] at hk
    obtain ⟨h1, h2⟩ := logspace_val_bounds ((((n : Int) - 0 + 1 : Int)) : ℝ)
      hM1 k (by omega)
    have hv0 : (0 : ℝ) ≤ (10 : ℝ) ^ ((k : ℝ) *
        Real.logb 10 ((((n : Int) - 0 + 1 : Int)) : ℝ) /
          ((100 : ℝ) - 1)) := by linarith
    simp only [realTrunc]
    rw [if_pos hv0]
    have hfl : (1 : Int) ≤ ⌊(10 : ℝ) ^ ((k : ℝ) *
        Real.logb 10 ((((n : Int) - 0 + 1 : Int)) : ℝ) /
          ((100 : ℝ) - 1))⌋ := by
      rw [Int.le_floor]
      exact_mod_cast h1
    have hfu : ⌊(10 : ℝ) ^ ((k : ℝ) *
        Real.logb 10 ((((n : Int) - 0 + 1 : Int)) : ℝ) /
          ((100 : ℝ) - 1))⌋ ≤ (n : Int) + 1 := by
      calc ⌊(10 : ℝ) ^ ((k : ℝ) *
            Real.logb 10 ((((n : Int) - 0 + 1 : Int)) : ℝ) /
              ((100 : ℝ) - 1))⌋
          ≤ ⌊((((n : Int) - 0 + 1 : Int)) : ℝ)⌋ := Int.floor_mono h2
        _ = (n : Int) - 0 + 1 := Int.floor_intCast _
        _ = (n : Int) + 1 := by ring
    omega
  have hsorted : List.Sorted (· < ·) (log_indices 0 (n : Int) 100) := by
    rw [hform]
    exact uniqueInts_sorted_lt _
  exact ⟨hsorted, hzero, hbounds,
    sorted_head?_eq_zero hsorted hzero (fun x hx => (hbounds x hx).1)⟩

/-- The value of `int(10 ** (k * log10(5) / 99)) - 1`: the floor of
`5^(k/99)` steps through 1, 2, 3, 4, 5 at `k = 43, 68, 86, 99`. -/
def floorBand5 (k : ℕ) : Int :=
  if k ≤ 42 then 0 else if k ≤ 67 then 1 else if k ≤ 85 then 2
  else if k ≤ 98 then 3 else 4

set_option maxHeartbeats 1000000 in
theorem floor_rpow_five (k m : ℕ) (h1 : m ^ 99 ≤ 5 ^ k)
    (h2 : 5 ^ k < (m + 1) ^ 99) :
    ⌊(5 : ℝ) ^ ((k : ℝ) / 99)⌋ = (m : Int) := by
  have h5 : (0 : ℝ) ≤ 5 := by norm_num
  have hv0 : (0 : ℝ) ≤ (5 : ℝ) ^ ((k : ℝ) / 99) := Real.rpow_nonneg h5 _
  have hmul : (k : ℝ) / 99 * ((99 : ℕ) : ℝ) = (k : ℝ) := by
    push_cast
    field_simp
  have keyN : ((5 : ℝ) ^ ((k : ℝ) / 99)) ^ (99 : ℕ) = ((5 ^ k : ℕ) : ℝ) := by
    rw [← Real.rpow_natCast ((5 : ℝ) ^ ((k : ℝ) / 99)) 99,
      ← Real.rpow_mul h5, hmul, Real.rpow_natCast]
    push_cast
    ring
  have hlow : ((m : ℝ)) ≤ (5 : ℝ) ^ ((k : ℝ) / 99) := by
    have hpow : ((m : ℝ)) ^ (99 : ℕ) ≤
        ((5 : ℝ) ^ ((k : ℝ) / 99)) ^ (99 : ℕ) := by
      rw [keyN]
      calc ((m : ℝ)) ^ (99 : ℕ) = ((m ^ 99 : ℕ) : ℝ) := by push_cast; ring
        _ ≤ ((5 ^ k : ℕ) : ℝ) := by exact_mod_cast h1
    by_contra hc
    push_neg at hc
    have := pow_lt_pow_left₀ hc hv0 (by norm_num : (99 : ℕ) ≠ 0)
    linarith
  have hhigh : (5 : ℝ) ^ ((k : ℝ) / 99) < ((m : ℝ)) + 1 := by
    have hpow : ((5 : ℝ) ^ ((k : ℝ) / 99)) ^ (99 : ℕ) <
        ((m : ℝ) + 1) ^ (99 : ℕ) := by
      rw [keyN]
      calc ((5 ^ k : ℕ) : ℝ) < (((m + 1) ^ 99 : ℕ) : ℝ) := by
            exact_mod_cast h2
        _ = ((m : ℝ) + 1) ^ (99 : ℕ) := by push_cast; ring
    clear keyN hmul hlow h1 h2
    by_contra hc
    push_neg at hc
    have hm1nn : (0 : ℝ) ≤ (m : ℝ) + 1 := by positivity
    have := pow_le_pow_left₀ hm1nn hc 99
    linarith
  refine Int.floor_eq_iff.mpr ⟨?_, ?_⟩
  · push_cast
    exact hlow
  · push_cast
    exact hhigh

theorem logspace_base_change_five (k : ℕ) :
    (10 : ℝ) ^ ((k : ℝ) * Real.logb 10 (((4 - 0 + 1 : Int)) : ℝ) /
      ((100 : ℝ) - 1)) = (5 : ℝ) ^ ((k : ℝ) / 99) := by
  have h5 : (((4 - 0 + 1 : Int)) : ℝ) = 5 := by norm_num
  rw [h5]
  have he : (k : ℝ) * Real.logb 10 5 / ((100 : ℝ) - 1) =
      Real.logb 10 5 * ((k : ℝ) / 99) := by
    rw [show ((100 : ℝ) - 1) = 99 by norm_num]
    ring
  rw [he, Real.rpow_mul (by norm_num : (0 : ℝ) ≤ 10),
    Real.rpow_logb (by norm_num) (by norm_num) (by norm_num : (0 : ℝ) < 5)]

theorem log_indices_five_entry (k : ℕ) (hk : k < 100) :
    realTrunc ((10 : ℝ) ^ ((k : ℝ) *
      Real.logb 10 (((4 - 0 + 1 : Int)) : ℝ) / ((100 : ℝ) - 1))) - 1 + 0 =
      floorBand5 k := by
  rw [logspace_base_change_five]
  have hv0 : (0 : ℝ) ≤ (5 : ℝ) ^ ((k : ℝ) / 99) :=
    Real.rpow_nonneg (by norm_num) _
  simp only [realTrunc]
  rw [if_pos hv0]
  unfold floorBand5
  by_cases h42 : k ≤ 42
  · have h10 : 1 ≤ 5 ^ k := Nat.one_le_pow k 5 (by norm_num)
    have h1 : 1 ^ 99 ≤ 5 ^ k := by simpa using h10
    have h2 : 5 ^ k < (1 + 1) ^ 99 := by
      calc (5 : ℕ) ^ k ≤ 5 ^ 42 := Nat.pow_le_pow_right (by norm_num) h42
        _ < (1 + 1) ^ 99 := by norm_num
    rw [floor_rpow_five k 1 h1 h2]
    simp [h42]
  · by_cases h67 : k ≤ 67
    · have h1 : 2 ^ 99 ≤ 5 ^ k := by
        calc (2 : ℕ) ^ 99 ≤ 5 ^ 43 := by norm_num
          _ ≤ 5 ^ k := Nat.pow_le_pow_right (by norm_num) (by omega)
      have h2 : 5 ^ k < (2 + 1) ^ 99 := by
        calc (5 : ℕ) ^ k ≤ 5 ^ 67 := Nat.pow_le_pow_right (by norm_num) h67
          _ < (2 + 1) ^ 99 := by norm_num
      rw [floor_rpow_five k 2 h1 h2]
      norm_num [h42, h67]
    · by_cases h85 : k ≤ 85
      · have h1 : 3 ^ 99 ≤ 5 ^ k := by
          calc (3 : ℕ) ^ 99 ≤ 5 ^ 68 := by norm_num
            _ ≤ 5 ^ k := Nat.pow_le_pow_right (by norm_num) (by omega)
        have h2 : 5 ^ k < (3 + 1) ^ 99 := by
          calc (5 : ℕ) ^ k ≤ 5 ^ 85 := Nat.pow_le_pow_right (by norm_num) h85
            _ < (3 + 1) ^ 99 := by norm_num
        rw [floor_rpow_five k 3 h1 h2]
        norm_num [h42, h67, h85]
      · by_cases h98 : k ≤ 98
        · have h1 : 4 ^ 99 ≤ 5 ^ k := by
            calc (4 : ℕ) ^ 99 ≤ 5 ^ 86 := by norm_num
              _ ≤ 5 ^ k := Nat.pow_le_pow_right (by norm_num) (by omega)
          have h2 : 5 ^ k < (4 + 1) ^ 99 := by
            calc (5 : ℕ) ^ k ≤ 5 ^ 98 :=
                Nat.pow_le_pow_right (by norm_num) h98
              _ < (4 + 1) ^ 99 := by norm_num
          rw [floor_rpow_five k 4 h1 h2]
          norm_num [h42, h67, h85, h98]
        · have h99 : k ≤ 99 := by omega
          have h1 : 5 ^ 99 ≤ 5 ^ k :=
            Nat.pow_le_pow_right (by norm_num) (by omega)
          have h2 : 5 ^ k < (5 + 1) ^ 99 := by
            calc (5 : ℕ) ^ k ≤ 5 ^ 99 :=
                Nat.pow_le_pow_right (by norm_num) h99
              _ < (5 + 1) ^ 99 := Nat.pow_lt_pow_left (by norm_num)
                (by norm_num)
          rw [floor_rpow_five k 5 h1 h2]
          norm_num [h42, h67, h85, h98]

theorem uniqueInts_eq_of_sorted_mem {l target : List Int}
    (hs : List.Sorted (· < ·) target)
    (hmem : ∀ x, x ∈ l ↔ x ∈ target) : uniqueInts l = target := by
  exact List.eq_of_perm_of_sorted
    ((List.perm_ext_iff_of_nodup (uniqueInts_sorted_lt l).nodup
      hs.nodup).mpr (fun a => (mem_uniqueInts).trans (hmem a)))
    ((uniqueInts_sorted_lt l).le_of_lt) (hs.le_of_lt)

theorem floorBand5_mem (k : ℕ) : floorBand5 k ∈ ([0, 1, 2, 3, 4] : List Int) := by
  unfold floorBand5
  split_ifs <;> simp

theorem log_indices_zero_four :
    log_indices 0 4 100 = [0, 1, 2, 3, 4] := by
  have hform : log_indices 0 4 100 =
      uniqueInts (((List.range 100).map (fun k : ℕ =>
        (10 : ℝ) ^ ((k : ℝ) * Real.logb 10 (((4 - 0 + 1 : Int)) : ℝ) /
          ((100 : ℝ) - 1)))).map
          (fun x => realTrunc x - 1 + 0)) := rfl
  rw [hform, List.map_map]
  have hcongr : (List.range 100).map ((fun x => realTrunc x - 1 + 0) ∘
      (fun k : ℕ => (10 : ℝ) ^ ((k : ℝ) *
        Real.logb 10 (((4 - 0 + 1 : Int)) : ℝ) / ((100 : ℝ) - 1)))) =
      (List.range 100).map floorBand5 := by
    apply List.map_congr_left
    intro k hk
    exact log_indices_five_entry k (List.mem_range.mp hk)
  rw [hcongr]
  apply uniqueInts_eq_of_sorted_mem (by decide)
  intro x
  constructor
  · intro hx
    obtain ⟨k, _, rfl⟩ := List.mem_map.mp hx
    exact floorBand5_mem k
  · intro hx
    have hcases : x = 0 ∨ x = 1 ∨ x = 2 ∨ x = 3 ∨ x = 4 := by
      simpa using hx
    rcases hcases with rfl | rfl | rfl | rfl | rfl
    · exact List.mem_map.mpr ⟨0, List.mem_range.mpr (by norm_num), rfl⟩
    · exact List.mem_map.mpr ⟨43, List.mem_range.mpr (by norm_num), rfl⟩
    · exact List.mem_map.mpr ⟨68, List.mem_range.mpr (by norm_num), rfl⟩
    · exact List.mem_map.mpr ⟨86, List.mem_range.mpr (by norm_num), rfl⟩
    · exact List.mem_map.mpr ⟨99, List.mem_range.mpr (by norm_num), rfl⟩

/-- The function of the spec's hand-computation test:
`function(a, b) = sum(a) - sum(b)`. -/
def sumDiff : Frame → Frame → Rat := fun a b => a.data.sum - b.data.sum

/-- Five frames with constant per-frame time step 1 starting at time 0. -/
def frames5 : FrameSeq :=
  ⟨[⟨0, [0]⟩, ⟨1, [1]⟩, ⟨2, [2]⟩, ⟨3, [3]⟩, ⟨4, [4]⟩], Option.none⟩

/-- Counterexample to C4 as stated: `window = 1.0, skip = 0` violates the
precondition `window + skip < 1` of correlation.py line 78, so the call
fails with the configuration error instead of returning the claimed
lag-time and value sequences. -/
theorem C4_window_one_counterexample :
    shifted_correlation sumDiff frames5 (fun a b => log_indices a b 100)
      correlation 1 1 (some 0) false =
      Except.error ConfigurationError.windowSkipTooLarge := by
  simp only [shifted_correlation, effSkip]
  norm_num

/-- C4, amended: the stated `window = 1.0` violates the scheduler's
precondition, so the window fraction is lowered to `0.8`, the largest
value for which `num_frames = int(5 * window) = 4` covers all five frames
through the default log-spaced lag offsets `[0, 1, 2, 3, 4]`; with
`segments = 1, skip = 0` the single segment starts at frame 0, the
lag-time sequence is `frames[i].time - frames[0].time = [0, 1, 2, 3, 4]`,
and the value sequence matches the direct hand computation of
`sum(frames[0]) - sum(frames[i])`, with zero-lag entry 0. -/
theorem C4_hand_computation_amended :
    shifted_correlation sumDiff frames5 (fun a b => log_indices a b 100)
      correlation 1 (4/5) (some 0) false =
      Except.ok ([0, 1, 2, 3, 4], [[0, -1, -2, -3, -4]]) := by
  have h5 : frames5.frames.length = 5 := rfl
  have h4 : numFrames 5 (4/5) = 4 := by
    norm_num [numFrames, truncQ]
  have hidx : log_indices 0 (numFrames frames5.frames.length (4/5)) 100 =
      [0, 1, 2, 3, 4] := by
    rw [h5, h4]
    exact log_indices_zero_four
  simp only [shifted_correlation, effSkip]
  rw [if_pos (by norm_num)]
  rw [hidx, h5]
  have hstart : startFrames 5 0 (4/5) 1 = [0] := by
    norm_num [startFrames, linspaceSample, truncQ, List.range_succ]
  rw [hstart]
  have hf0 : frameAt frames5 0 = ⟨0, [0]⟩ := rfl
  have hf1 : frameAt frames5 1 = ⟨1, [1]⟩ := rfl
  have hf2 : frameAt frames5 2 = ⟨2, [2]⟩ := rfl
  have hf3 : frameAt frames5 3 = ⟨3, [3]⟩ := rfl
  have hf4 : frameAt frames5 4 = ⟨4, [4]⟩ := rfl
  norm_num [correlation, sumDiff, hf0, hf1, hf2, hf3, hf4,
    List.sum_cons, List.sum_nil]

end Mdevaluate
